import Mathlib

/-
Shallow embedding of the pipeforge diff engine
(src/domain/sync/compare.go, src/domain/sync/convert.go,
src/domain/sync/options.go, src/internal/core/domain/Record.go,
src/domain/data_type.go) in Lean 4.

Modelling conventions:
* Go pointers (`*Record`, `*DataSchema`, nil interface values) become
  `Option` values; a nil pointer or nil interface is `none`.
* Go `map[string]T` becomes an association list `List (String × T)`;
  Go maps always have unique keys, insertion (`m[k] = v`) is modelled by
  `ainsert` (replace in place or append) which preserves key uniqueness,
  and map iteration is modelled by list iteration (the results proved
  below do not depend on iteration order, matching Go's unspecified map
  order).
* Go `float64` under Go `==` is modelled by `GoFloat`: a NaN (which
  compares unequal to everything, including itself) or a numeric value
  compared numerically (this merges +0.0 with -0.0 and the NaN payloads,
  which `==` cannot distinguish anyway).
* `time.Time` values compared with `Equal` are modelled by their instant
  (an `Int`).
* Go interface equality on `SchemaType` is modelled structurally; it
  coincides with Go's behaviour whenever custom-type schema references
  are shared or absent, which covers every input exercised here.
* The open `domain.Value` interface is modelled by the closed variants of
  the source plus an `UnknownValue` constructor carrying an arbitrary
  tag together with its reported `GetType`/`IsNull` answers; this stands
  for the "value variant not explicitly handled" case of the spec, with
  schema types drawn from the closed SchemaType universe of the spec.
-/

namespace Pipeforge

set_option maxRecDepth 8000

/-- Go float64 as compared by Go `==`: NaN is unequal to everything
(itself included); numeric values compare numerically. -/
inductive GoFloat where
  | nan : GoFloat
  | num : Int → GoFloat
deriving DecidableEq, Repr

/-- Go `==` on float64. -/
def goFloatEq : GoFloat → GoFloat → Bool
  | .num a, .num b => a == b
  | _, _ => false

/- SchemaType / DataSchema / SchemaColumn (src/domain/data_type.go).
`NativeType` is a string-backed type; `CustomType` holds a name and a
schema reference (nil possible). `SchemaColumn` is single or array, the
carried type is a Go interface value (nil possible). -/

mutual
inductive SchemaType where
  | NativeType (name : String) : SchemaType
  | CustomType (name : String) (schema : Option DataSchema) : SchemaType

inductive DataSchema where
  | mk (id : String) (columns : List SchemaColumn) : DataSchema

inductive SchemaColumn where
  | SchemaColumnSingle (id : String) (schemaType : Option SchemaType) : SchemaColumn
  | SchemaColumnArray (id : String) (refSchema : Option SchemaType) : SchemaColumn
end

def NativeTypeString : SchemaType := .NativeType "string"
def NativeTypeInt : SchemaType := .NativeType "int"
def NativeTypeFloat : SchemaType := .NativeType "float"
def NativeTypeDate : SchemaType := .NativeType "date"
def NativeTypeBool : SchemaType := .NativeType "bool"

def DataSchema.schemaID : DataSchema → String
  | .mk i _ => i

def DataSchema.columns : DataSchema → List SchemaColumn
  | .mk _ cs => cs

/- Structural equality of schema types, modelling Go interface equality
`a.GetType() != b.GetType()` in valuesEqualWithOptions. -/

mutual
def schemaTypeEq : SchemaType → SchemaType → Bool
  | .NativeType a, .NativeType b => a == b
  | .CustomType n1 s1, .CustomType n2 s2 => n1 == n2 && optSchemaEq s1 s2
  | _, _ => false

def optSchemaEq : Option DataSchema → Option DataSchema → Bool
  | none, none => true
  | some a, some b => dataSchemaEq a b
  | _, _ => false

def dataSchemaEq : DataSchema → DataSchema → Bool
  | .mk i1 c1, .mk i2 c2 => i1 == i2 && columnListEq c1 c2

def columnListEq : List SchemaColumn → List SchemaColumn → Bool
  | [], [] => true
  | c :: cs, d :: ds => columnEq c d && columnListEq cs ds
  | _, _ => false

def columnEq : SchemaColumn → SchemaColumn → Bool
  | .SchemaColumnSingle i1 t1, .SchemaColumnSingle i2 t2 => i1 == i2 && optTypeEq t1 t2
  | .SchemaColumnArray i1 t1, .SchemaColumnArray i2 t2 => i1 == i2 && optTypeEq t1 t2
  | _, _ => false

def optTypeEq : Option SchemaType → Option SchemaType → Bool
  | none, none => true
  | some a, some b => schemaTypeEq a b
  | _, _ => false
end

mutual
theorem schemaTypeEq_refl : ∀ t, schemaTypeEq t t = true
  | .NativeType a => by simp [schemaTypeEq]
  | .CustomType n s => by simp [schemaTypeEq, optSchemaEq_refl s]

theorem optSchemaEq_refl : ∀ s, optSchemaEq s s = true
  | none => by simp [optSchemaEq]
  | some a => by simp [optSchemaEq, dataSchemaEq_refl a]

theorem dataSchemaEq_refl : ∀ d, dataSchemaEq d d = true
  | .mk i cs => by simp [dataSchemaEq, columnListEq_refl cs]

theorem columnListEq_refl : ∀ cs, columnListEq cs cs = true
  | [] => by simp [columnListEq]
  | c :: cs => by simp [columnListEq, columnEq_refl c, columnListEq_refl cs]

theorem columnEq_refl : ∀ c, columnEq c c = true
  | .SchemaColumnSingle i t => by simp [columnEq, optTypeEq_refl t]
  | .SchemaColumnArray i t => by simp [columnEq, optTypeEq_refl t]

theorem optTypeEq_refl : ∀ t, optTypeEq t t = true
  | none => by simp [optTypeEq]
  | some a => by simp [optTypeEq, schemaTypeEq_refl a]
end

/- Value / Record (src/internal/core/domain/Record.go).  A Record holds a
schema reference and a column-id → Value map; a RecordValue holds a
nullable nested Record; an ArrayValue holds its declared element type
and its elements.  `UnknownValue` stands for any further implementation
of the Go `Value` interface (carrying its `GetType` and `IsNull`
answers and an arbitrary tag). -/

mutual
inductive Value where
  | StringValue (s : String) : Value
  | IntValue (n : Int) : Value
  | FloatValue (f : GoFloat) : Value
  | DateValue (instant : Int) : Value
  | BoolValue (b : Bool) : Value
  | NullValue (type : Option SchemaType) : Value
  | ArrayValue (elementType : Option SchemaType) (elements : List Value) : Value
  | RecordValue (record : Option Record) : Value
  | UnknownValue (tag : Nat) (type : Option SchemaType) (null : Bool) : Value

inductive Record where
  | mk (schema : Option DataSchema) (values : List (String × Value)) : Record
end

def Record.schema : Record → Option DataSchema
  | .mk s _ => s

def Record.values : Record → List (String × Value)
  | .mk _ vs => vs

/-- Go `v.GetType()`; nil interface results are `none`
(a RecordValue with a nil record or nil schema reports a nil type). -/
def Value.getType : Value → Option SchemaType
  | .StringValue _ => some NativeTypeString
  | .IntValue _ => some NativeTypeInt
  | .FloatValue _ => some NativeTypeFloat
  | .DateValue _ => some NativeTypeDate
  | .BoolValue _ => some NativeTypeBool
  | .NullValue t => t
  | .ArrayValue t _ => t
  | .RecordValue r =>
    match r with
    | none => none
    | some rec =>
      match rec.schema with
      | none => none
      | some s => some (.CustomType s.schemaID (some s))
  | .UnknownValue _ t _ => t

/-- Go `v.IsNull()`. -/
def Value.isNull : Value → Bool
  | .NullValue _ => true
  | .RecordValue none => true
  | .UnknownValue _ _ b => b
  | _ => false

/- Association-list model of Go maps. -/

/-- Go map lookup `m[k]` (`none` for absent keys, the nil interface). -/
def alookup {α : Type} : List (String × α) → String → Option α
  | [], _ => none
  | (k, v) :: rest, key => if k == key then some v else alookup rest key

/-- Go map insertion `m[k] = v`: replace the binding in place, or append. -/
def ainsert {α : Type} : List (String × α) → String → α → List (String × α)
  | [], k, v => [(k, v)]
  | (k', v') :: rest, k, v =>
    if k' == k then (k, v) :: rest else (k', v') :: ainsert rest k v

/-- Keys of an association list. -/
def akeys {α : Type} (m : List (String × α)) : List String := m.map Prod.fst

/-- Go `record.Get(columnID)` (`Record.Get`, Record.go). -/
def Record.get (r : Record) (columnID : String) : Option Value :=
  alookup r.values columnID

/-- Go `record.Set(columnID, value)` (`Record.Set`, Record.go). -/
def Record.set (r : Record) (columnID : String) (value : Value) : Record :=
  .mk r.schema (ainsert r.values columnID value)

/-- Go `domain.NewRecord(schema)`. -/
def NewRecord (schema : Option DataSchema) : Record := .mk schema []

/- Typed accessors (Record.go): a failed type assertion yields the
documented zero value.  `getArray`/`getRecord` return `none` for Go nil. -/

/-- Go `Record.GetString`. -/
def Record.getStringCol (r : Record) (columnID : String) : String :=
  match alookup r.values columnID with
  | some (.StringValue s) => s
  | _ => ""

/-- Go `Record.GetInt`. -/
def Record.getIntCol (r : Record) (columnID : String) : Int :=
  match alookup r.values columnID with
  | some (.IntValue n) => n
  | _ => 0

/-- Go `Record.GetFloat`. -/
def Record.getFloatCol (r : Record) (columnID : String) : GoFloat :=
  match alookup r.values columnID with
  | some (.FloatValue f) => f
  | _ => .num 0

/-- Go `Record.GetDate` (zero time = instant 0). -/
def Record.getDateCol (r : Record) (columnID : String) : Int :=
  match alookup r.values columnID with
  | some (.DateValue d) => d
  | _ => 0

/-- Go `Record.GetBool`. -/
def Record.getBoolCol (r : Record) (columnID : String) : Bool :=
  match alookup r.values columnID with
  | some (.BoolValue b) => b
  | _ => false

/-- Go `Record.GetArray` (`none` = Go nil slice). -/
def Record.getArrayCol (r : Record) (columnID : String) : Option (List Value) :=
  match alookup r.values columnID with
  | some (.ArrayValue _ els) => some els
  | _ => none

/-- Go `Record.GetRecord` (`none` = Go nil pointer; a RecordValue holding
a nil record returns that nil record). -/
def Record.getRecordCol (r : Record) (columnID : String) : Option Record :=
  match alookup r.values columnID with
  | some (.RecordValue rec) => rec
  | _ => none

/- RecordSet (RecordSet.go): schema reference plus ordered records
(each entry itself a possibly-nil pointer). -/

structure RecordSet where
  schema : Option DataSchema
  records : List (Option Record)

/-- Go `domain.NewRecordSet(schema)`. -/
def NewRecordSet (schema : Option DataSchema) : RecordSet := ⟨schema, []⟩

/- Change kinds (domain/sync delta model).  Go declares them as
int-backed enums via iota; the embedding keeps the integer carriers so
the `String()` default branch stays representable. -/

def FieldUnchanged : Int := 0
def FieldAdded : Int := 1
def FieldUpdated : Int := 2
def FieldDeleted : Int := 3

def RecordUnchanged : Int := 0
def RecordAdded : Int := 1
def RecordModified : Int := 2
def RecordDeleted : Int := 3

/-- Go `RecordChangeType.String()`. -/
def recordChangeTypeString (t : Int) : String :=
  if t == RecordUnchanged then "unchanged"
  else if t == RecordAdded then "added"
  else if t == RecordModified then "modified"
  else if t == RecordDeleted then "deleted"
  else "unknown"

/-- FieldDelta (domain/sync): column id, change kind, old/new values. -/
structure FieldDelta where
  columnID : String
  changeType : Int
  oldValue : Option Value
  newValue : Option Value

/-- RecordDelta (domain/sync): index, change kind, old/new records,
field deltas. -/
structure RecordDelta where
  index : Int
  changeType : Int
  oldRecord : Option Record
  newRecord : Option Record
  fieldDeltas : List FieldDelta

/-- RecordSetDelta (domain/sync). -/
structure RecordSetDelta where
  schema : Option DataSchema
  recordDeltas : List RecordDelta

/- CompareOptions (options.go): field-path → key-column map for
key-based array matching. -/

structure CompareOptions where
  arrayKeys : List (String × String)

/-- Go `CompareOptions.GetArrayKey`: the configured key column for a
field path, or "" when none is configured. -/
def CompareOptions.getArrayKey (o : CompareOptions) (fieldPath : String) : String :=
  match alookup o.arrayKeys fieldPath with
  | some k => k
  | none => ""

/-- The options produced by `NewCompareOptions()` with no opts
(also stands for the nil options RecordsEqual passes down: both make
`GetArrayKey` return "" everywhere). -/
def emptyOptions : CompareOptions := ⟨[]⟩

/-- Go `valueToString` (compare.go): key stringification for array
key-matching.  Null → "", strings verbatim, ints in decimal, anything
else → "". -/
def valueToString (v : Value) : String :=
  if v.isNull then ""
  else
    match v with
    | .StringValue s => s
    | .IntValue n => toString n
    | _ => ""

/-- The loop body accumulator of Go `buildArrayKeyMap`: scan `elements`
left to right, keeping only RecordValue elements with a non-nil record
whose key column is present (Go checks `keyVal == nil` only), keyed by
`valueToString`.  Later elements overwrite earlier ones with the same
key, as in a Go map. -/
def buildMapLoop : List (String × Value) → List Value → String → List (String × Value)
  | acc, [], _ => acc
  | acc, e :: rest, keyColumn =>
    buildMapLoop
      (match e with
       | .RecordValue (some r) =>
         match alookup r.values keyColumn with
         | none => acc
         | some keyVal => ainsert acc (valueToString keyVal) e
       | _ => acc)
      rest keyColumn

/-- Go `buildArrayKeyMap` (compare.go). -/
def buildArrayKeyMap (elements : List Value) (keyColumn : String) : List (String × Value) :=
  buildMapLoop [] elements keyColumn

/- Support lemmas: elements stored in a key map come from the scanned
element list (used for termination of the recursive equality). -/

theorem mem_ainsert {α : Type} {p : String × α} :
    ∀ {m : List (String × α)} {k : String} {v : α},
      p ∈ ainsert m k v → p ∈ m ∨ p = (k, v) := by
  intro m
  induction m with
  | nil => intro k v h; simp [ainsert] at h; right; simp [h]
  | cons hd tl ih =>
    intro k v h
    simp only [ainsert] at h
    by_cases hk : hd.1 == k
    · rw [if_pos] at h
      · rcases List.mem_cons.mp h with h1 | h2
        · right; exact h1
        · left; exact List.mem_cons_of_mem _ h2
      · obtain ⟨k', v'⟩ := hd; exact hk
    · rw [if_neg] at h
      · rcases List.mem_cons.mp h with h1 | h2
        · left; obtain ⟨k', v'⟩ := hd; rw [h1]; exact List.mem_cons_self _ _
        · rcases ih h2 with h3 | h4
          · left; exact List.mem_cons_of_mem _ h3
          · right; exact h4
      · obtain ⟨k', v'⟩ := hd; exact hk

theorem mem_buildMapLoop {p : String × Value} {keyColumn : String} :
    ∀ {es : List Value} {acc : List (String × Value)},
      p ∈ buildMapLoop acc es keyColumn → p ∈ acc ∨ p.2 ∈ es := by
  intro es
  induction es with
  | nil => intro acc h; simp [buildMapLoop] at h; left; exact h
  | cons e rest ih =>
    intro acc h
    simp only [buildMapLoop] at h
    rcases ih h with hacc | hrest
    · revert hacc
      match e with
      | .RecordValue (some r) =>
        match halo : alookup r.values keyColumn with
        | none => intro hacc; simp [halo] at hacc; left; exact hacc
        | some keyVal =>
          intro hacc
          simp only [halo] at hacc
          rcases mem_ainsert hacc with h1 | h2
          · left; exact h1
          · right; rw [h2]; exact List.mem_cons_self _ _
      | .RecordValue none => intro hacc; left; exact hacc
      | .StringValue _ => intro hacc; left; exact hacc
      | .IntValue _ => intro hacc; left; exact hacc
      | .FloatValue _ => intro hacc; left; exact hacc
      | .DateValue _ => intro hacc; left; exact hacc
      | .BoolValue _ => intro hacc; left; exact hacc
      | .NullValue _ => intro hacc; left; exact hacc
      | .ArrayValue _ _ => intro hacc; left; exact hacc
      | .UnknownValue _ _ _ => intro hacc; left; exact hacc
    · right; exact List.mem_cons_of_mem _ hrest

theorem snd_mem_of_mem_buildArrayKeyMap {p : String × Value} {es : List Value}
    {keyColumn : String} (h : p ∈ buildArrayKeyMap es keyColumn) : p.2 ∈ es := by
  rcases mem_buildMapLoop h with h1 | h2
  · simp at h1
  · exact h2

theorem sizeOf_snd_lt_of_mem_keyMap {p : String × Value} {es : List Value}
    {keyColumn : String} (h : p ∈ buildArrayKeyMap es keyColumn) :
    sizeOf p.2 < sizeOf es := by
  have hm := snd_mem_of_mem_buildArrayKeyMap h
  exact List.sizeOf_lt_of_mem hm

theorem sizeOf_snd_lt_of_mem_values {p : String × Value} {r : Record}
    (h : p ∈ r.values) : sizeOf p.2 < sizeOf r := by
  obtain ⟨s, vs⟩ := r
  simp only [Record.values] at h
  have h1 : sizeOf p < sizeOf vs := List.sizeOf_lt_of_mem h
  obtain ⟨k, v⟩ := p
  simp only [Prod.mk.sizeOf_spec] at h1
  simp only [Record.mk.sizeOf_spec]
  omega

/- The recursive structural equality of the diff engine
(`valuesEqualWithOptions`, `arraysEqual`, `arraysEqualByKey`,
`RecordsEqual` of compare.go).  The per-index array loop is split into
`valueListsEqual`; iteration over the Go maps becomes iteration over the
association lists (`attach` carries the membership facts the
termination argument needs). -/

mutual
def valuesEqualWithOptions (a b : Value) (fieldPath : String) (options : CompareOptions) : Bool :=
  if !optTypeEq a.getType b.getType then false
  else
    match a, b with
    | .StringValue x, .StringValue y => x == y
    | .IntValue x, .IntValue y => x == y
    | .FloatValue x, .FloatValue y => goFloatEq x y
    | .BoolValue x, .BoolValue y => x == y
    | .DateValue x, .DateValue y => x == y
    | .ArrayValue _ xs, .ArrayValue _ ys => arraysEqual xs ys fieldPath options
    | .RecordValue ra, .RecordValue rb => RecordsEqual ra rb
    | _, _ => false
termination_by (sizeOf a, 0)

def arraysEqual (aEls bEls : List Value) (fieldPath : String) (options : CompareOptions) : Bool :=
  let keyColumn := options.getArrayKey fieldPath
  if keyColumn == "" then
    if aEls.length != bEls.length then false
    else valueListsEqual aEls bEls fieldPath options
  else arraysEqualByKey aEls bEls keyColumn fieldPath options
termination_by (sizeOf aEls, 2)

def valueListsEqual (aEls bEls : List Value) (fieldPath : String) (options : CompareOptions) : Bool :=
  match aEls, bEls with
  | [], _ => true
  | _ :: _, [] => true
  | x :: xs, y :: ys =>
    valuesEqualWithOptions x y fieldPath options && valueListsEqual xs ys fieldPath options
termination_by (sizeOf aEls, 1)

def arraysEqualByKey (aEls bEls : List Value) (keyColumn fieldPath : String) (options : CompareOptions) : Bool :=
  let aMap := buildArrayKeyMap aEls keyColumn
  let bMap := buildArrayKeyMap bEls keyColumn
  if aMap.length != bMap.length then false
  else
    aMap.attach.all (fun p =>
      match alookup bMap p.1.1 with
      | none => false
      | some bElem => valuesEqualWithOptions p.1.2 bElem fieldPath options)
termination_by (sizeOf aEls, 1)
decreasing_by
  apply Prod.Lex.left
  exact sizeOf_snd_lt_of_mem_keyMap p.2

def RecordsEqual (a b : Option Record) : Bool :=
  match a, b with
  | none, none => true
  | none, some _ => false
  | some _, none => false
  | some ra, some rb =>
    if ra.values.length != rb.values.length then false
    else
      ra.values.attach.all (fun p =>
        match alookup rb.values p.1.1 with
        | none => false
        | some valB => valuesEqualWithOptions p.1.2 valB "" emptyOptions)
termination_by (sizeOf a, 1)
decreasing_by
  apply Prod.Lex.left
  have h1 := sizeOf_snd_lt_of_mem_values p.2
  have h2 : sizeOf (some ra) = 1 + sizeOf ra := by simp
  omega
end

/-- Go `valuesEqual` (compare.go): equality without options (nil options
behave exactly like empty options, both make GetArrayKey return ""). -/
def valuesEqual (a b : Value) : Bool :=
  valuesEqualWithOptions a b "" emptyOptions

/-- Go `oldValue == nil || oldValue.IsNull()` on a possibly-nil
interface value. -/
def valueIsNull : Option Value → Bool
  | none => true
  | some v => v.isNull

/-- Go `compareFieldValues` (compare.go). -/
def compareFieldValues (columnID : String) (oldValue newValue : Option Value)
    (fieldPath : String) (options : CompareOptions) : FieldDelta :=
  let oldIsNull := valueIsNull oldValue
  let newIsNull := valueIsNull newValue
  if oldIsNull && newIsNull then
    ⟨columnID, FieldUnchanged, oldValue, newValue⟩
  else if oldIsNull && !newIsNull then
    ⟨columnID, FieldAdded, oldValue, newValue⟩
  else if !oldIsNull && newIsNull then
    ⟨columnID, FieldDeleted, oldValue, newValue⟩
  else
    match oldValue, newValue with
    | some a, some b =>
      if valuesEqualWithOptions a b fieldPath options then
        ⟨columnID, FieldUnchanged, oldValue, newValue⟩
      else
        ⟨columnID, FieldUpdated, oldValue, newValue⟩
    | _, _ =>
      -- unreachable: a `none` value is null and is caught above
      ⟨columnID, FieldUpdated, oldValue, newValue⟩

/-- The union of column ids of both records (the `allColumns` map of Go
`compareFields`; Go map iteration order is unspecified, the embedding
fixes the first-occurrence order, and no theorem below depends on it). -/
def unionKeys (oldRecord newRecord : Record) : List String :=
  (akeys oldRecord.values ++ akeys newRecord.values).dedup

/-- Go `compareFields` (compare.go). -/
def compareFields (oldRecord newRecord : Record) (parentPath : String)
    (options : CompareOptions) : List FieldDelta :=
  (unionKeys oldRecord newRecord).map fun colID =>
    let fieldPath := if parentPath == "" then colID else parentPath ++ "." ++ colID
    compareFieldValues colID (alookup oldRecord.values colID)
      (alookup newRecord.values colID) fieldPath options

/-- Go `CompareRecords` (compare.go).  The variadic opts are modelled by
the CompareOptions they build. -/
def CompareRecords (oldRecord newRecord : Option Record) (index : Int)
    (options : CompareOptions) : RecordDelta :=
  match oldRecord, newRecord with
  | none, none => ⟨index, RecordUnchanged, none, none, []⟩
  | none, some nr => ⟨index, RecordAdded, none, some nr, []⟩
  | some og, none => ⟨index, RecordDeleted, some og, none, []⟩
  | some og, some nr =>
    let fieldDeltas := compareFields og nr "" options
    let hasChanges := fieldDeltas.any fun fd => fd.changeType != FieldUnchanged
    let changeType := if hasChanges then RecordModified else RecordUnchanged
    ⟨index, changeType, some og, some nr, fieldDeltas⟩

/-- The record taken from a possibly-nil RecordSet at position `i`
(Go: `if set != nil && i < len(set.Records) { r = set.Records[i] }`). -/
def recordAt (s : Option RecordSet) (i : Nat) : Option Record :=
  match s with
  | none => none
  | some set =>
    match set.records.get? i with
    | none => none
    | some r => r

/-- Length of a possibly-nil RecordSet's record list. -/
def setLen : Option RecordSet → Nat
  | none => 0
  | some s => s.records.length

/-- Go `CompareRecordSets` (compare.go). -/
def CompareRecordSets (oldSet newSet : Option RecordSet) (options : CompareOptions) : RecordSetDelta :=
  let schema : Option DataSchema :=
    match newSet with
    | some ns =>
      match ns.schema with
      | some s => some s
      | none =>
        match oldSet with
        | some os => os.schema
        | none => none
    | none =>
      match oldSet with
      | some os => os.schema
      | none => none
  let maxLen := max (setLen oldSet) (setLen newSet)
  ⟨schema, (List.range maxLen).map fun i =>
    CompareRecords (recordAt oldSet i) (recordAt newSet i) (Int.ofNat i) options⟩

/-- Go `createDeltaSchema` (convert.go). -/
def createDeltaSchema (rsd : RecordSetDelta) : DataSchema :=
  let refSchema : Option SchemaType :=
    match rsd.schema with
    | some s => some (.CustomType s.schemaID (some s))
    | none => some NativeTypeString
  .mk "Delta"
    [ .SchemaColumnSingle "index" (some NativeTypeInt),
      .SchemaColumnSingle "change_type" (some NativeTypeString),
      .SchemaColumnSingle "old" refSchema,
      .SchemaColumnSingle "new" refSchema ]

/-- The record Go `ToRecordSet` builds for one RecordDelta
(NewRecord followed by the four Sets). -/
def deltaRecord (ds : DataSchema) (rd : RecordDelta) : Record :=
  ((((NewRecord (some ds)).set "index" (.IntValue rd.index)).set
      "change_type" (.StringValue (recordChangeTypeString rd.changeType))).set
      "old" (.RecordValue rd.oldRecord)).set
      "new" (.RecordValue rd.newRecord)

/-- Go `RecordSetDelta.ToRecordSet` (convert.go). -/
def ToRecordSet (rsd : RecordSetDelta) : RecordSet :=
  let deltaSchema := createDeltaSchema rsd
  ⟨some deltaSchema, rsd.recordDeltas.map fun rd => some (deltaRecord deltaSchema rd)⟩

/- Helper lemmas about the per-field comparison and the field-delta
list of CompareRecords. -/

theorem compareFieldValues_columnID (c : String) (ov nv : Option Value)
    (p : String) (o : CompareOptions) :
    (compareFieldValues c ov nv p o).columnID = c := by
  simp only [compareFieldValues]
  split_ifs <;> try rfl
  rcases ov with _ | a <;> rcases nv with _ | b <;> simp <;> split_ifs <;> rfl

theorem compareFieldValues_changeType_cases (c : String) (ov nv : Option Value)
    (p : String) (o : CompareOptions) :
    (compareFieldValues c ov nv p o).changeType = FieldUnchanged ∨
    (compareFieldValues c ov nv p o).changeType = FieldAdded ∨
    (compareFieldValues c ov nv p o).changeType = FieldUpdated ∨
    (compareFieldValues c ov nv p o).changeType = FieldDeleted := by
  simp only [compareFieldValues]
  split_ifs <;> try simp
  rcases ov with _ | a <;> rcases nv with _ | b <;> simp <;> split_ifs <;> simp

theorem compareFields_top (a b : Record) (o : CompareOptions) :
    compareFields a b "" o = (unionKeys a b).map fun c =>
      compareFieldValues c (alookup a.values c) (alookup b.values c) c o := by
  unfold compareFields
  simp

theorem CompareRecords_some_some (a b : Record) (i : Int) (o : CompareOptions) :
    CompareRecords (some a) (some b) i o =
      ⟨i,
       if (compareFields a b "" o).any (fun fd => fd.changeType != FieldUnchanged)
         then RecordModified else RecordUnchanged,
       some a, some b, compareFields a b "" o⟩ := rfl

theorem filter_length_map_nodup (g : String → FieldDelta)
    (hg : ∀ c, (g c).columnID = c) (c : String) :
    ∀ {l : List String}, l.Nodup →
      ((l.map g).filter fun fd => fd.columnID == c).length
        = if c ∈ l then 1 else 0 := by
  intro l
  induction l with
  | nil => intro _; simp
  | cons a l ih =>
    intro hn
    rcases List.nodup_cons.mp hn with ⟨ha, hl⟩
    by_cases hac : a = c
    · subst hac
      simp only [List.map_cons, List.filter_cons, hg, beq_self_eq_true, if_pos,
        List.length_cons, ih hl, List.mem_cons]
      simp [ha]
    · have hbeq : ((g a).columnID == c) = false := by
        rw [hg]; exact beq_eq_false_iff_ne.mpr hac
      simp only [List.map_cons, List.filter_cons, hbeq, List.mem_cons,
        Bool.false_eq_true, if_false]
      rw [ih hl]
      have hca : ¬c = a := fun h => hac h.symm
      simp [hca]

/-- C1: CompareRecords performs the documented case analysis: both nil →
Unchanged with no field deltas; only old nil → Added; only new nil →
Deleted; both present → exactly one FieldDelta per column id of the
union of the two value maps, each delta being the per-field comparison
of that column, and the record kind is Modified when at least one field
delta is non-Unchanged, else Unchanged. -/
theorem claim_C1_compareRecords_case_analysis (oldR newR : Record) (i : Int)
    (o : CompareOptions) :
    (CompareRecords none none i o = ⟨i, RecordUnchanged, none, none, []⟩)
    ∧ (CompareRecords none (some newR) i o).changeType = RecordAdded
    ∧ (CompareRecords (some oldR) none i o).changeType = RecordDeleted
    ∧ (∀ c, ((CompareRecords (some oldR) (some newR) i o).fieldDeltas.filter
          fun fd => fd.columnID == c).length
        = if c ∈ akeys oldR.values ∨ c ∈ akeys newR.values then 1 else 0)
    ∧ (∀ fd ∈ (CompareRecords (some oldR) (some newR) i o).fieldDeltas,
        fd = compareFieldValues fd.columnID (alookup oldR.values fd.columnID)
          (alookup newR.values fd.columnID) fd.columnID o)
    ∧ ((CompareRecords (some oldR) (some newR) i o).changeType = RecordModified
        ∨ (CompareRecords (some oldR) (some newR) i o).changeType = RecordUnchanged)
    ∧ ((CompareRecords (some oldR) (some newR) i o).changeType = RecordModified
        ↔ ∃ fd ∈ (CompareRecords (some oldR) (some newR) i o).fieldDeltas,
            fd.changeType ≠ FieldUnchanged) := by
  refine ⟨rfl, rfl, rfl, ?_, ?_, ?_, ?_⟩
  · intro c
    rw [CompareRecords_some_some]
    simp only [compareFields_top]
    have hnd : (unionKeys oldR newR).Nodup := by
      unfold unionKeys; exact List.nodup_dedup _
    rw [filter_length_map_nodup
      (fun c => compareFieldValues c (alookup oldR.values c) (alookup newR.values c) c o)
      (fun c => compareFieldValues_columnID c _ _ _ _) c hnd]
    simp [unionKeys, List.mem_dedup]
  · intro fd hfd
    rw [CompareRecords_some_some] at hfd
    simp only [compareFields_top, List.mem_map] at hfd
    obtain ⟨c, _, hgen⟩ := hfd
    have hcol : fd.columnID = c := by
      rw [← hgen]; exact compareFieldValues_columnID c _ _ _ _
    rw [hcol]; exact hgen.symm
  · rw [CompareRecords_some_some]
    show (if (compareFields oldR newR "" o).any (fun fd => fd.changeType != FieldUnchanged)
        then RecordModified else RecordUnchanged) = RecordModified
      ∨ (if (compareFields oldR newR "" o).any (fun fd => fd.changeType != FieldUnchanged)
        then RecordModified else RecordUnchanged) = RecordUnchanged
    by_cases h : (compareFields oldR newR "" o).any fun fd => fd.changeType != FieldUnchanged
    · left; rw [if_pos h]
    · right; rw [if_neg h]
  · rw [CompareRecords_some_some]
    show (if (compareFields oldR newR "" o).any (fun fd => fd.changeType != FieldUnchanged)
        then RecordModified else RecordUnchanged) = RecordModified
      ↔ ∃ fd ∈ compareFields oldR newR "" o, fd.changeType ≠ FieldUnchanged
    by_cases h : (compareFields oldR newR "" o).any fun fd => fd.changeType != FieldUnchanged
    · rw [if_pos h]
      constructor
      · intro _
        rcases List.any_eq_true.mp h with ⟨fd, hmem, hne⟩
        exact ⟨fd, hmem, bne_iff_ne.mp hne⟩
      · intro _; rfl
    · rw [if_neg h]
      constructor
      · intro hcontra
        exact absurd hcontra (by decide)
      · intro ⟨fd, hmem, hne⟩
        refine absurd (List.any_eq_true.mpr ⟨fd, hmem, ?_⟩) h
        show (fd.changeType != FieldUnchanged) = true
        exact bne_iff_ne.mpr hne

/- Fail-closed behaviour of the structural equality. -/

theorem valuesEqual_of_type_ne (a b : Value) (p : String) (o : CompareOptions)
    (h : optTypeEq a.getType b.getType = false) :
    valuesEqualWithOptions a b p o = false := by
  unfold valuesEqualWithOptions
  simp [h]

theorem valuesEqual_unknown_left (g : Nat) (t : Option SchemaType) (nl : Bool)
    (b : Value) (p : String) (o : CompareOptions) :
    valuesEqualWithOptions (.UnknownValue g t nl) b p o = false := by
  unfold valuesEqualWithOptions
  split_ifs
  · rfl
  · cases b <;> rfl

theorem valuesEqual_unknown_right (g : Nat) (t : Option SchemaType) (nl : Bool)
    (a : Value) (p : String) (o : CompareOptions) :
    valuesEqualWithOptions a (.UnknownValue g t nl) p o = false := by
  unfold valuesEqualWithOptions
  split_ifs
  · rfl
  · cases a <;> rfl

/-- C5: per-field classification of compareFieldValues: both null →
Unchanged; null→value → Added; value→null → Deleted; both non-null →
Unchanged iff structurally equal, else Updated; values of differing
reported SchemaType and unhandled (unknown) variants are never
structurally equal, so they yield Updated — including two identical
values of an unknown variant. -/
theorem claim_C5_field_classification (c : String) (ov nv : Option Value)
    (p : String) (o : CompareOptions) :
    (valueIsNull ov = true → valueIsNull nv = true →
      (compareFieldValues c ov nv p o).changeType = FieldUnchanged)
    ∧ (valueIsNull ov = true → valueIsNull nv = false →
      (compareFieldValues c ov nv p o).changeType = FieldAdded)
    ∧ (valueIsNull ov = false → valueIsNull nv = true →
      (compareFieldValues c ov nv p o).changeType = FieldDeleted)
    ∧ (∀ a b, a.isNull = false → b.isNull = false →
      (compareFieldValues c (some a) (some b) p o).changeType
        = if valuesEqualWithOptions a b p o then FieldUnchanged else FieldUpdated)
    ∧ (∀ a b : Value, optTypeEq a.getType b.getType = false →
      valuesEqualWithOptions a b p o = false)
    ∧ (∀ (g : Nat) (t : Option SchemaType) (b : Value),
      valuesEqualWithOptions (.UnknownValue g t false) b p o = false
        ∧ valuesEqualWithOptions b (.UnknownValue g t false) p o = false)
    ∧ (∀ (g : Nat) (t : Option SchemaType),
      (compareFieldValues c (some (.UnknownValue g t false))
        (some (.UnknownValue g t false)) p o).changeType = FieldUpdated) := by
  refine ⟨?_, ?_, ?_, ?_, ?_, ?_, ?_⟩
  · intro h1 h2; simp [compareFieldValues, h1, h2]
  · intro h1 h2; simp [compareFieldValues, h1, h2]
  · intro h1 h2; simp [compareFieldValues, h1, h2]
  · intro a b ha hb
    simp only [compareFieldValues, valueIsNull, ha, hb]
    by_cases hv : valuesEqualWithOptions a b p o
    · simp [hv]
    · simp [hv]
  · intro a b h; exact valuesEqual_of_type_ne a b p o h
  · intro g t b
    exact ⟨valuesEqual_unknown_left g t false b p o,
           valuesEqual_unknown_right g t false b p o⟩
  · intro g t
    simp only [compareFieldValues, valueIsNull, Value.isNull]
    simp [valuesEqual_unknown_left]

/-- Witness for C5 at concrete inputs: an explicit null against an
absent value is Unchanged, and two identical unknown-variant values are
Updated. -/
theorem claim_C5_witness :
    (compareFieldValues "v" (some (.NullValue none)) none "" emptyOptions).changeType
      = FieldUnchanged
    ∧ (compareFieldValues "v" (some (.UnknownValue 7 (some NativeTypeInt) false))
        (some (.UnknownValue 7 (some NativeTypeInt) false)) "" emptyOptions).changeType
      = FieldUpdated :=
  ⟨(claim_C5_field_classification "v" (some (.NullValue none)) none "" emptyOptions).1
      rfl rfl,
   (claim_C5_field_classification "v" (some (.UnknownValue 7 (some NativeTypeInt) false))
      (some (.UnknownValue 7 (some NativeTypeInt) false)) "" emptyOptions).2.2.2.2.2.2
      7 (some NativeTypeInt)⟩

/-- C3: evaluation of the code at the failing input.  The claim states
reflexivity for every record, explicitly including records with
NullValue entries; the code fails it: `valuesEqual` has no NullValue
case (its switch falls through to the fail-closed default), so
`RecordsEqual` on a record with an explicit null entry — fed to
`valuesEqual` without the null pre-filter `compareFieldValues` has — is
false, and `CompareRecords` marks a record holding such a nested record
value as Modified against itself. -/
theorem claim_C3_code_eval_at_failing_input :
    RecordsEqual (some (.mk none [("x", .NullValue (some NativeTypeString))]))
        (some (.mk none [("x", .NullValue (some NativeTypeString))])) = false
    ∧ (CompareRecords
        (some (.mk none [("p", .RecordValue (some (.mk none
          [("x", .NullValue (some NativeTypeString))])))]))
        (some (.mk none [("p", .RecordValue (some (.mk none
          [("x", .NullValue (some NativeTypeString))])))]))
        0 emptyOptions).changeType = RecordModified := by
  constructor
  · simp [RecordsEqual, Record.values, valuesEqualWithOptions, alookup,
      Value.getType, optTypeEq, schemaTypeEq, NativeTypeString, emptyOptions]
  · simp [CompareRecords, compareFields, unionKeys, akeys, Record.values,
      List.dedup, compareFieldValues, valueIsNull, Value.isNull, alookup,
      valuesEqualWithOptions, RecordsEqual, Value.getType, optTypeEq,
      schemaTypeEq, NativeTypeString, emptyOptions, FieldUnchanged,
      RecordModified]
    decide

/- Association-list lemmas used for the null-vs-absent analysis and the
key-map characterization. -/

theorem alookup_none_iff_not_mem_keys {α : Type} {m : List (String × α)} {c : String} :
    alookup m c = none ↔ c ∉ akeys m := by
  induction m with
  | nil => simp [alookup, akeys]
  | cons hd tl ih =>
    obtain ⟨k, v⟩ := hd
    by_cases hk : k = c
    · subst hk; simp [alookup, akeys]
    · have hbeq : (k == c) = false := beq_eq_false_iff_ne.mpr hk
      simp [alookup, akeys, hbeq, ih, hk, Ne.symm hk]

theorem ainsert_of_lookup_none {α : Type} {m : List (String × α)} {x : String}
    {v : α} (h : alookup m x = none) : ainsert m x v = m ++ [(x, v)] := by
  induction m with
  | nil => simp [ainsert]
  | cons hd tl ih =>
    obtain ⟨k, w⟩ := hd
    simp only [alookup] at h
    by_cases hk : (k == x) = true
    · rw [if_pos hk] at h; exact absurd h (by simp)
    · rw [if_neg hk] at h
      simp only [ainsert, Bool.not_eq_true] at *
      rw [hk]
      simp [ih h]

theorem alookup_append {α : Type} {l1 l2 : List (String × α)} {c : String} :
    alookup (l1 ++ l2) c =
      match alookup l1 c with
      | some w => some w
      | none => alookup l2 c := by
  induction l1 with
  | nil => simp [alookup]
  | cons hd tl ih =>
    obtain ⟨k, v⟩ := hd
    by_cases hk : (k == c) = true
    · simp [alookup, hk]
    · simp [alookup, hk, ih]

/-- C4 counterexample: replacing an absent column by an explicit Null
changes RecordsEqual.  Two empty records are equal, but a record whose
only entry is an explicit Null is unequal to the empty record
(RecordsEqual compares value-map sizes first). -/
theorem claim_C4_counterexample :
    RecordsEqual (some (.mk none [])) (some (.mk none [])) = true
    ∧ RecordsEqual (some (.mk none [("x", .NullValue (some NativeTypeString))]))
        (some (.mk none [])) = false := by
  constructor
  · simp [RecordsEqual, Record.values]
  · simp [RecordsEqual, Record.values]

/- Per-field change kinds do not distinguish an absent value from an
explicit Null, on either side. -/

theorem compareFieldValues_null_absent_old (c : String) (t : Option SchemaType)
    (nv : Option Value) (p : String) (o : CompareOptions) :
    (compareFieldValues c (some (.NullValue t)) nv p o).changeType
      = (compareFieldValues c none nv p o).changeType := by
  cases hnv : valueIsNull nv <;>
    simp [compareFieldValues, hnv,
      show valueIsNull (some (Value.NullValue t)) = true from rfl,
      show valueIsNull (none : Option Value) = true from rfl]

theorem compareFieldValues_null_absent_new (c : String) (t : Option SchemaType)
    (ov : Option Value) (p : String) (o : CompareOptions) :
    (compareFieldValues c ov (some (.NullValue t)) p o).changeType
      = (compareFieldValues c ov none p o).changeType := by
  cases hov : valueIsNull ov <;>
    simp [compareFieldValues, hov,
      show valueIsNull (some (Value.NullValue t)) = true from rfl,
      show valueIsNull (none : Option Value) = true from rfl]

/-- The Modified test of CompareRecords, as an existential over the
column union. -/
theorem compareFields_any_iff (r s : Record) (o : CompareOptions) :
    ((compareFields r s "" o).any fun fd => fd.changeType != FieldUnchanged) = true
      ↔ ∃ c ∈ unionKeys r s,
          (compareFieldValues c (alookup r.values c) (alookup s.values c) c o).changeType
            ≠ FieldUnchanged := by
  rw [compareFields_top, List.any_eq_true]
  constructor
  · rintro ⟨fd, hmem, hbne⟩
    rw [List.mem_map] at hmem
    obtain ⟨c, hc, hgen⟩ := hmem
    refine ⟨c, hc, ?_⟩
    rw [hgen]
    exact bne_iff_ne.mp hbne
  · rintro ⟨c, hc, hne⟩
    refine ⟨_, List.mem_map_of_mem _ hc, ?_⟩
    show (_ != FieldUnchanged) = true
    exact bne_iff_ne.mpr hne

theorem exists_mem_insert_iff (L1 L2 : List String) (x : String) (Q : String → Prop)
    (hmem : ∀ c, c ∈ L1 ↔ c = x ∨ c ∈ L2)
    (hQx : x ∈ L2 ∨ ¬Q x) :
    (∃ c ∈ L1, Q c) ↔ (∃ c ∈ L2, Q c) := by
  constructor
  · rintro ⟨c, hc, hq⟩
    rcases (hmem c).mp hc with rfl | hc2
    · rcases hQx with hxin | hqx
      · exact ⟨c, hxin, hq⟩
      · exact absurd hq hqx
    · exact ⟨c, hc2, hq⟩
  · rintro ⟨c, hc, hq⟩
    exact ⟨c, (hmem c).mpr (Or.inr hc), hq⟩

/-- C4 amended: the per-field classification (which produces every
change kind CompareRecords reports) never distinguishes an absent
column from an explicit Null, on either side, and the record-level kind
of CompareRecords is unchanged when an absent column of the old record
is replaced by an explicit Null; but RecordsEqual — the nested-record
equality — does distinguish the two states: it returns false whenever
the two value maps differ in size. -/
theorem claim_C4_amended_absent_vs_null (a b : Record) (x : String)
    (t : Option SchemaType) (i : Int) (o : CompareOptions) (c : String)
    (ov nv : Option Value) (p : String)
    (h : alookup a.values x = none) :
    ((compareFieldValues c (some (.NullValue t)) nv p o).changeType
        = (compareFieldValues c none nv p o).changeType)
    ∧ ((compareFieldValues c ov (some (.NullValue t)) p o).changeType
        = (compareFieldValues c ov none p o).changeType)
    ∧ ((CompareRecords (some (a.set x (.NullValue t))) (some b) i o).changeType
        = (CompareRecords (some a) (some b) i o).changeType)
    ∧ (∀ r s : Record, r.values.length ≠ s.values.length →
        RecordsEqual (some r) (some s) = false) := by
  refine ⟨compareFieldValues_null_absent_old c t nv p o,
          compareFieldValues_null_absent_new c t ov p o, ?_, ?_⟩
  · have hvals : (a.set x (.NullValue t)).values = a.values ++ [(x, .NullValue t)] :=
      ainsert_of_lookup_none h
    have hgen : ∀ c0,
        (compareFieldValues c0 (alookup (a.set x (.NullValue t)).values c0)
          (alookup b.values c0) c0 o).changeType
        = (compareFieldValues c0 (alookup a.values c0)
            (alookup b.values c0) c0 o).changeType := by
      intro c0
      rw [hvals, alookup_append]
      by_cases hcx : c0 = x
      · subst hcx
        rw [h]
        simp only [alookup, beq_self_eq_true, if_pos]
        exact compareFieldValues_null_absent_old c0 t _ c0 o
      · cases hlk : alookup a.values c0 with
        | some w => rfl
        | none =>
          have hbeq : (x == c0) = false :=
            beq_eq_false_iff_ne.mpr fun heq => hcx heq.symm
          simp [alookup, hbeq]
    have hmem : ∀ c0, c0 ∈ unionKeys (a.set x (.NullValue t)) b
        ↔ c0 = x ∨ c0 ∈ unionKeys a b := by
      intro c0
      simp only [unionKeys, hvals, akeys, List.map_append, List.mem_dedup,
        List.mem_append, List.map_cons, List.map_nil, List.mem_cons,
        List.not_mem_nil, or_false]
      constructor
      · rintro ((h1 | h2) | h3)
        · exact Or.inr (Or.inl h1)
        · exact Or.inl h2
        · exact Or.inr (Or.inr h3)
      · rintro (h1 | (h2 | h3))
        · exact Or.inl (Or.inr h1)
        · exact Or.inl (Or.inl h2)
        · exact Or.inr h3
    have hQx : x ∈ unionKeys a b
        ∨ ¬((compareFieldValues x (alookup a.values x) (alookup b.values x) x o).changeType
            ≠ FieldUnchanged) := by
      by_cases hxb : x ∈ akeys b.values
      · left
        simp only [unionKeys, List.mem_dedup, List.mem_append]
        exact Or.inr hxb
      · right
        have hbx : alookup b.values x = none := alookup_none_iff_not_mem_keys.mpr hxb
        rw [h, hbx]
        simp [compareFieldValues, valueIsNull]
    have hXiff :
        ((compareFields (a.set x (.NullValue t)) b "" o).any
          fun fd => fd.changeType != FieldUnchanged) = true
        ↔ ((compareFields a b "" o).any
          fun fd => fd.changeType != FieldUnchanged) = true := by
      rw [compareFields_any_iff, compareFields_any_iff]
      have hq : ∀ c0,
          ((compareFieldValues c0 (alookup (a.set x (.NullValue t)).values c0)
            (alookup b.values c0) c0 o).changeType ≠ FieldUnchanged)
          ↔ ((compareFieldValues c0 (alookup a.values c0)
              (alookup b.values c0) c0 o).changeType ≠ FieldUnchanged) := by
        intro c0; rw [hgen c0]
      calc (∃ c0 ∈ unionKeys (a.set x (.NullValue t)) b,
              (compareFieldValues c0 (alookup (a.set x (.NullValue t)).values c0)
                (alookup b.values c0) c0 o).changeType ≠ FieldUnchanged)
          ↔ ∃ c0 ∈ unionKeys (a.set x (.NullValue t)) b,
              (compareFieldValues c0 (alookup a.values c0)
                (alookup b.values c0) c0 o).changeType ≠ FieldUnchanged := by
            constructor
            · rintro ⟨c0, hc0, hne⟩; exact ⟨c0, hc0, (hq c0).mp hne⟩
            · rintro ⟨c0, hc0, hne⟩; exact ⟨c0, hc0, (hq c0).mpr hne⟩
        _ ↔ ∃ c0 ∈ unionKeys a b,
              (compareFieldValues c0 (alookup a.values c0)
                (alookup b.values c0) c0 o).changeType ≠ FieldUnchanged :=
            exists_mem_insert_iff _ _ x _ hmem hQx
    have hXX : ((compareFields (a.set x (.NullValue t)) b "" o).any
          fun fd => fd.changeType != FieldUnchanged)
        = ((compareFields a b "" o).any
          fun fd => fd.changeType != FieldUnchanged) := by
      rcases hx1 : (compareFields (a.set x (.NullValue t)) b "" o).any
          fun fd => fd.changeType != FieldUnchanged
        <;> rcases hx2 : (compareFields a b "" o).any
          fun fd => fd.changeType != FieldUnchanged
        <;> simp_all
    rw [CompareRecords_some_some, CompareRecords_some_some]
    exact congrArg (fun z : Bool => if z = true then RecordModified else RecordUnchanged) hXX
  · intro r s hlen
    unfold RecordsEqual
    rw [if_pos (bne_iff_ne.mpr hlen)]

/-- Witness for C4 at concrete inputs: adding an explicit Null for the
absent column "x" leaves the record-level change kind of CompareRecords
unchanged. -/
theorem claim_C4_amended_witness :
    (CompareRecords (some ((Record.mk none []).set "x" (.NullValue none)))
        (some (.mk none [("y", .IntValue 3)])) 0 emptyOptions).changeType
      = (CompareRecords (some (.mk none []))
          (some (.mk none [("y", .IntValue 3)])) 0 emptyOptions).changeType :=
  (claim_C4_amended_absent_vs_null (.mk none []) (.mk none [("y", .IntValue 3)])
    "x" none 0 emptyOptions "c" none none "" rfl).2.2.1

/-- C9: each typed accessor returns its documented zero value whenever
the stored value is absent, an explicit null, or of a variant other
than the accessor's (all three are exactly the cases where no value of
the accessor's variant is stored, since scalar variants are never
null), and returns the underlying value otherwise; every accessor is a
total function. -/
theorem claim_C9_typed_accessors (r : Record) (c : String) :
    ((∀ s, alookup r.values c ≠ some (.StringValue s)) → r.getStringCol c = "")
    ∧ (∀ s, alookup r.values c = some (.StringValue s) → r.getStringCol c = s)
    ∧ ((∀ n, alookup r.values c ≠ some (.IntValue n)) → r.getIntCol c = 0)
    ∧ (∀ n, alookup r.values c = some (.IntValue n) → r.getIntCol c = n)
    ∧ ((∀ f, alookup r.values c ≠ some (.FloatValue f)) → r.getFloatCol c = .num 0)
    ∧ (∀ f, alookup r.values c = some (.FloatValue f) → r.getFloatCol c = f)
    ∧ ((∀ d, alookup r.values c ≠ some (.DateValue d)) → r.getDateCol c = 0)
    ∧ (∀ d, alookup r.values c = some (.DateValue d) → r.getDateCol c = d)
    ∧ ((∀ b, alookup r.values c ≠ some (.BoolValue b)) → r.getBoolCol c = false)
    ∧ (∀ b, alookup r.values c = some (.BoolValue b) → r.getBoolCol c = b)
    ∧ ((∀ t els, alookup r.values c ≠ some (.ArrayValue t els)) → r.getArrayCol c = none)
    ∧ (∀ t els, alookup r.values c = some (.ArrayValue t els) → r.getArrayCol c = some els)
    ∧ ((∀ rec, alookup r.values c ≠ some (.RecordValue rec)) → r.getRecordCol c = none)
    ∧ (∀ rec, alookup r.values c = some (.RecordValue rec) → r.getRecordCol c = rec) := by
  refine ⟨?_, ?_, ?_, ?_, ?_, ?_, ?_, ?_, ?_, ?_, ?_, ?_, ?_, ?_⟩
  · intro h
    rcases hlk : alookup r.values c with _ | v
    · simp [Record.getStringCol, hlk]
    · cases v <;> simp [Record.getStringCol, hlk] <;> exact absurd hlk (h _)
  · intro s hs; simp [Record.getStringCol, hs]
  · intro h
    rcases hlk : alookup r.values c with _ | v
    · simp [Record.getIntCol, hlk]
    · cases v <;> simp [Record.getIntCol, hlk] <;> exact absurd hlk (h _)
  · intro n hn; simp [Record.getIntCol, hn]
  · intro h
    rcases hlk : alookup r.values c with _ | v
    · simp [Record.getFloatCol, hlk]
    · cases v <;> simp [Record.getFloatCol, hlk] <;> exact absurd hlk (h _)
  · intro f hf; simp [Record.getFloatCol, hf]
  · intro h
    rcases hlk : alookup r.values c with _ | v
    · simp [Record.getDateCol, hlk]
    · cases v <;> simp [Record.getDateCol, hlk] <;> exact absurd hlk (h _)
  · intro d hd; simp [Record.getDateCol, hd]
  · intro h
    rcases hlk : alookup r.values c with _ | v
    · simp [Record.getBoolCol, hlk]
    · cases v <;> simp [Record.getBoolCol, hlk] <;> exact absurd hlk (h _)
  · intro b hb; simp [Record.getBoolCol, hb]
  · intro h
    rcases hlk : alookup r.values c with _ | v
    · simp [Record.getArrayCol, hlk]
    · cases v <;> simp [Record.getArrayCol, hlk] <;> exact absurd hlk (h _ _)
  · intro t els he; simp [Record.getArrayCol, he]
  · intro h
    rcases hlk : alookup r.values c with _ | v
    · simp [Record.getRecordCol, hlk]
    · cases v <;> simp [Record.getRecordCol, hlk] <;> exact absurd hlk (h _)
  · intro rec hrec; simp [Record.getRecordCol, hrec]

/-- Witness for C9 at a concrete record: the stored string is returned
verbatim, the int accessor on the same (string) column returns 0, and
the accessors on an explicit-null column return their zero values. -/
theorem claim_C9_witness :
    (Record.mk none [("s", .StringValue "hi"), ("n", .NullValue none)]).getStringCol "s" = "hi"
    ∧ (Record.mk none [("s", .StringValue "hi"), ("n", .NullValue none)]).getIntCol "s" = 0
    ∧ (Record.mk none [("s", .StringValue "hi"), ("n", .NullValue none)]).getStringCol "n" = ""
    ∧ (Record.mk none [("s", .StringValue "hi"), ("n", .NullValue none)]).getBoolCol "missing" = false :=
  ⟨(claim_C9_typed_accessors _ "s").2.1 "hi" (by simp [alookup, Record.values]),
   (claim_C9_typed_accessors _ "s").2.2.1 (fun n h => by simp [alookup, Record.values] at h),
   (claim_C9_typed_accessors _ "n").1 (fun s h => by simp [alookup, Record.values] at h),
   (claim_C9_typed_accessors _ "missing").2.2.2.2.2.2.2.2.1
     (fun b h => by simp [alookup, Record.values] at h)⟩

theorem CompareRecords_index (a b : Option Record) (i : Int) (o : CompareOptions) :
    (CompareRecords a b i o).index = i := by
  cases a <;> cases b <;> rfl

/-- C6: CompareRecordSets produces exactly max(old length, new length)
record deltas; the i-th delta is CompareRecords applied to the records
at position i of each side (nil when the side is nil or too short) with
Index i; and the delta schema prefers the new set's schema when that is
non-nil, else falls back to the old set's schema. -/
theorem claim_C6_compareRecordSets (oldSet newSet : Option RecordSet) (o : CompareOptions) :
    (CompareRecordSets oldSet newSet o).recordDeltas.length
      = max (setLen oldSet) (setLen newSet)
    ∧ (∀ i, i < max (setLen oldSet) (setLen newSet) →
        (CompareRecordSets oldSet newSet o).recordDeltas.get? i
          = some (CompareRecords (recordAt oldSet i) (recordAt newSet i) (Int.ofNat i) o))
    ∧ (∀ i rd, (CompareRecordSets oldSet newSet o).recordDeltas.get? i = some rd →
        rd.index = Int.ofNat i)
    ∧ (∀ ns s, newSet = some ns → ns.schema = some s →
        (CompareRecordSets oldSet newSet o).schema = some s)
    ∧ (∀ ns os, newSet = some ns → ns.schema = none → oldSet = some os →
        (CompareRecordSets oldSet newSet o).schema = os.schema)
    ∧ (∀ os, newSet = none → oldSet = some os →
        (CompareRecordSets oldSet newSet o).schema = os.schema)
    ∧ (newSet = none → oldSet = none →
        (CompareRecordSets oldSet newSet o).schema = none) := by
  refine ⟨?_, ?_, ?_, ?_, ?_, ?_, ?_⟩
  · simp [CompareRecordSets]
  · intro i hi
    simp [CompareRecordSets, List.get?_eq_getElem?, List.getElem?_map,
      List.getElem?_range, hi]
  · intro i rd hrd
    obtain ⟨hlt, -⟩ := List.get?_eq_some.mp hrd
    have hi : i < max (setLen oldSet) (setLen newSet) := by
      simpa [CompareRecordSets] using hlt
    have h2 : (CompareRecordSets oldSet newSet o).recordDeltas.get? i
        = some (CompareRecords (recordAt oldSet i) (recordAt newSet i) (Int.ofNat i) o) := by
      simp [CompareRecordSets, List.get?_eq_getElem?, List.getElem?_map,
        List.getElem?_range, hi]
    rw [hrd] at h2
    rw [Option.some_inj.mp h2]
    exact CompareRecords_index _ _ _ _
  · rintro ns s rfl hs; simp [CompareRecordSets, hs]
  · rintro ns os rfl hs rfl; simp [CompareRecordSets, hs]
  · rintro os rfl rfl; simp [CompareRecordSets]
  · rintro rfl rfl; simp [CompareRecordSets]

/-- Witness for C6 at concrete record sets: one-record old set without
schema against a two-record new set; entry 0 is the positional
comparison and the schema is the new set's. -/
theorem claim_C6_witness :
    (CompareRecordSets
        (some ⟨none, [some (.mk none [("n", .IntValue 1)])]⟩)
        (some ⟨some (.mk "S" []), [some (.mk none [("n", .IntValue 1)]), none]⟩)
        emptyOptions).recordDeltas.length = 2
    ∧ (CompareRecordSets
        (some ⟨none, [some (.mk none [("n", .IntValue 1)])]⟩)
        (some ⟨some (.mk "S" []), [some (.mk none [("n", .IntValue 1)]), none]⟩)
        emptyOptions).recordDeltas.get? 0
      = some (CompareRecords
          (recordAt (some ⟨none, [some (.mk none [("n", .IntValue 1)])]⟩) 0)
          (recordAt (some ⟨some (.mk "S" []),
            [some (.mk none [("n", .IntValue 1)]), none]⟩) 0)
          (Int.ofNat 0) emptyOptions)
    ∧ (CompareRecordSets
        (some ⟨none, [some (.mk none [("n", .IntValue 1)])]⟩)
        (some ⟨some (.mk "S" []), [some (.mk none [("n", .IntValue 1)]), none]⟩)
        emptyOptions).schema = some (.mk "S" []) := by
  refine ⟨?_, ?_, ?_⟩
  · exact (claim_C6_compareRecordSets _ _ _).1
  · exact (claim_C6_compareRecordSets _ _ _).2.1 0 (by decide)
  · exact (claim_C6_compareRecordSets _ _ _).2.2.2.1 _ _ rfl rfl

/-- C7: ToRecordSet yields exactly one record per RecordDelta, over the
fixed 4-column Delta schema; the i-th record stores the i-th delta's
Index as an IntValue, the string form of its change kind as a
StringValue, and the old/new record references wrapped as nested
RecordValues; when the delta carries no schema the old/new columns are
declared with the plain string type instead of the nested custom
type. -/
theorem claim_C7_toRecordSet_round_trip (rsd : RecordSetDelta) :
    (ToRecordSet rsd).records.length = rsd.recordDeltas.length
    ∧ (∀ i rd, rsd.recordDeltas.get? i = some rd →
        (ToRecordSet rsd).records.get? i
            = some (some (deltaRecord (createDeltaSchema rsd) rd))
        ∧ (deltaRecord (createDeltaSchema rsd) rd).get "index"
            = some (.IntValue rd.index)
        ∧ (deltaRecord (createDeltaSchema rsd) rd).get "change_type"
            = some (.StringValue (recordChangeTypeString rd.changeType))
        ∧ (deltaRecord (createDeltaSchema rsd) rd).get "old"
            = some (.RecordValue rd.oldRecord)
        ∧ (deltaRecord (createDeltaSchema rsd) rd).get "new"
            = some (.RecordValue rd.newRecord))
    ∧ (ToRecordSet rsd).schema = some (createDeltaSchema rsd)
    ∧ (rsd.schema = none → createDeltaSchema rsd = .mk "Delta"
        [ .SchemaColumnSingle "index" (some NativeTypeInt),
          .SchemaColumnSingle "change_type" (some NativeTypeString),
          .SchemaColumnSingle "old" (some NativeTypeString),
          .SchemaColumnSingle "new" (some NativeTypeString) ])
    ∧ (∀ s, rsd.schema = some s → createDeltaSchema rsd = .mk "Delta"
        [ .SchemaColumnSingle "index" (some NativeTypeInt),
          .SchemaColumnSingle "change_type" (some NativeTypeString),
          .SchemaColumnSingle "old" (some (.CustomType s.schemaID (some s))),
          .SchemaColumnSingle "new" (some (.CustomType s.schemaID (some s))) ]) := by
  refine ⟨?_, ?_, ?_, ?_, ?_⟩
  · simp [ToRecordSet]
  · intro i rd hrd
    refine ⟨?_, ?_, ?_, ?_, ?_⟩
    · rw [List.get?_eq_getElem?] at hrd
      simp [ToRecordSet, List.get?_eq_getElem?, List.getElem?_map, hrd]
    · simp [deltaRecord, NewRecord, Record.set, Record.get, Record.values,
        Record.schema, ainsert, alookup]
    · simp [deltaRecord, NewRecord, Record.set, Record.get, Record.values,
        Record.schema, ainsert, alookup]
    · simp [deltaRecord, NewRecord, Record.set, Record.get, Record.values,
        Record.schema, ainsert, alookup]
    · simp [deltaRecord, NewRecord, Record.set, Record.get, Record.values,
        Record.schema, ainsert, alookup]
  · rfl
  · intro hs; simp [createDeltaSchema, hs]
  · intro s hs; simp [createDeltaSchema, hs]

/-- Witness for C7 at a concrete one-delta RecordSetDelta without a
schema: one record is produced, storing index 5, the string "added" and
the wrapped old/new references. -/
theorem claim_C7_witness :
    (ToRecordSet ⟨none, [⟨5, RecordAdded, none, some (.mk none []), []⟩]⟩).records.length = 1
    ∧ (deltaRecord (createDeltaSchema ⟨none, [⟨5, RecordAdded, none, some (.mk none []), []⟩]⟩)
        ⟨5, RecordAdded, none, some (.mk none []), []⟩).get "change_type"
      = some (.StringValue "added")
    ∧ (deltaRecord (createDeltaSchema ⟨none, [⟨5, RecordAdded, none, some (.mk none []), []⟩]⟩)
        ⟨5, RecordAdded, none, some (.mk none []), []⟩).get "index"
      = some (.IntValue 5) := by
  refine ⟨?_, ?_, ?_⟩
  · simpa using (claim_C7_toRecordSet_round_trip ⟨none,
      [⟨5, RecordAdded, none, some (.mk none []), []⟩]⟩).1
  · simpa using ((claim_C7_toRecordSet_round_trip ⟨none,
      [⟨5, RecordAdded, none, some (.mk none []), []⟩]⟩).2.1 0
      ⟨5, RecordAdded, none, some (.mk none []), []⟩ rfl).2.2.1
  · exact ((claim_C7_toRecordSet_round_trip ⟨none,
      [⟨5, RecordAdded, none, some (.mk none []), []⟩]⟩).2.1 0
      ⟨5, RecordAdded, none, some (.mk none []), []⟩ rfl).2.1

theorem CompareRecords_changeType_cases (a b : Option Record) (i : Int) (o : CompareOptions) :
    (CompareRecords a b i o).changeType = RecordUnchanged
    ∨ (CompareRecords a b i o).changeType = RecordAdded
    ∨ (CompareRecords a b i o).changeType = RecordModified
    ∨ (CompareRecords a b i o).changeType = RecordDeleted := by
  cases a with
  | none => cases b <;> simp [CompareRecords]
  | some ra =>
    cases b with
    | none => simp [CompareRecords]
    | some rb =>
      rw [CompareRecords_some_some]
      by_cases h : (compareFields ra rb "" o).any fun fd => fd.changeType != FieldUnchanged
      · right; right; left
        show (if _ then RecordModified else RecordUnchanged) = RecordModified
        rw [if_pos h]
      · left
        show (if _ then RecordModified else RecordUnchanged) = RecordUnchanged
        rw [if_neg h]

/-- C8: the diff engine is total, with every outcome drawn from the
defined enums: the embedded CompareRecords, CompareRecordSets and
ToRecordSet are total Lean functions over every combination of
nil/non-nil records and sets, nil schemas, absent or explicit-null
fields, type-mismatched values, unknown variants and malformed array
elements, and every change kind they produce is one of the four defined
kinds, CompareRecordSets always produces max(|old|,|new|) deltas, and
ToRecordSet always yields one (non-nil) record per delta. -/
theorem claim_C8_totality (oldR newR : Option Record) (oldSet newSet : Option RecordSet)
    (i : Int) (o : CompareOptions) (rsd : RecordSetDelta) :
    ((CompareRecords oldR newR i o).changeType = RecordUnchanged
      ∨ (CompareRecords oldR newR i o).changeType = RecordAdded
      ∨ (CompareRecords oldR newR i o).changeType = RecordModified
      ∨ (CompareRecords oldR newR i o).changeType = RecordDeleted)
    ∧ (∀ fd ∈ (CompareRecords oldR newR i o).fieldDeltas,
        fd.changeType = FieldUnchanged ∨ fd.changeType = FieldAdded
        ∨ fd.changeType = FieldUpdated ∨ fd.changeType = FieldDeleted)
    ∧ (CompareRecordSets oldSet newSet o).recordDeltas.length
        = max (setLen oldSet) (setLen newSet)
    ∧ (∀ rd ∈ (CompareRecordSets oldSet newSet o).recordDeltas,
        rd.changeType = RecordUnchanged ∨ rd.changeType = RecordAdded
        ∨ rd.changeType = RecordModified ∨ rd.changeType = RecordDeleted)
    ∧ (ToRecordSet rsd).records.length = rsd.recordDeltas.length
    ∧ (∀ r ∈ (ToRecordSet rsd).records, r ≠ none) := by
  refine ⟨CompareRecords_changeType_cases oldR newR i o, ?_, ?_, ?_, ?_, ?_⟩
  · intro fd hfd
    cases oldR with
    | none => cases newR <;> simp [CompareRecords] at hfd
    | some ra =>
      cases newR with
      | none => simp [CompareRecords] at hfd
      | some rb =>
        rw [CompareRecords_some_some] at hfd
        simp only [compareFields_top, List.mem_map] at hfd
        obtain ⟨c, -, hgen⟩ := hfd
        rw [← hgen]
        exact compareFieldValues_changeType_cases c _ _ _ o
  · simp [CompareRecordSets]
  · intro rd hrd
    simp only [CompareRecordSets, List.mem_map] at hrd
    obtain ⟨j, -, hgen⟩ := hrd
    rw [← hgen]
    exact CompareRecords_changeType_cases _ _ _ o
  · simp [ToRecordSet]
  · intro r hr
    simp only [ToRecordSet, List.mem_map] at hr
    obtain ⟨rd, -, hgen⟩ := hr
    rw [← hgen]
    simp

/-- Witness for C8 at concrete inputs: a type-mismatched field yields
the defined Updated kind, and a nil set against a one-record set yields
one delta of a defined kind. -/
theorem claim_C8_witness :
    ((CompareRecords (some (.mk none [("v", .IntValue 1)]))
        (some (.mk none [("v", .StringValue "x")])) 0 emptyOptions).changeType = RecordUnchanged
      ∨ (CompareRecords (some (.mk none [("v", .IntValue 1)]))
        (some (.mk none [("v", .StringValue "x")])) 0 emptyOptions).changeType = RecordAdded
      ∨ (CompareRecords (some (.mk none [("v", .IntValue 1)]))
        (some (.mk none [("v", .StringValue "x")])) 0 emptyOptions).changeType = RecordModified
      ∨ (CompareRecords (some (.mk none [("v", .IntValue 1)]))
        (some (.mk none [("v", .StringValue "x")])) 0 emptyOptions).changeType = RecordDeleted)
    ∧ (CompareRecordSets none (some ⟨none, [none]⟩) emptyOptions).recordDeltas.length = 1 := by
  constructor
  · exact (claim_C8_totality (some (.mk none [("v", .IntValue 1)]))
      (some (.mk none [("v", .StringValue "x")])) none (some ⟨none, [none]⟩)
      0 emptyOptions ⟨none, []⟩).1
  · simpa using (claim_C8_totality (some (.mk none [("v", .IntValue 1)]))
      (some (.mk none [("v", .StringValue "x")])) none (some ⟨none, [none]⟩)
      0 emptyOptions ⟨none, []⟩).2.2.1

/-- Witness for C1 at concrete records: one shared column, differing
int values — exactly one field delta for that column and the
record-level kind dichotomy. -/
theorem claim_C1_witness :
    ((CompareRecords (some (.mk none [("n", .IntValue 1)]))
        (some (.mk none [("n", .IntValue 2)])) 0 emptyOptions).fieldDeltas.filter
        fun fd => fd.columnID == "n").length = 1
    ∧ ((CompareRecords (some (.mk none [("n", .IntValue 1)]))
        (some (.mk none [("n", .IntValue 2)])) 0 emptyOptions).changeType = RecordModified
      ∨ (CompareRecords (some (.mk none [("n", .IntValue 1)]))
        (some (.mk none [("n", .IntValue 2)])) 0 emptyOptions).changeType = RecordUnchanged) := by
  constructor
  · have := (claim_C1_compareRecords_case_analysis (.mk none [("n", .IntValue 1)])
      (.mk none [("n", .IntValue 2)]) 0 emptyOptions).2.2.2.1 "n"
    simpa [akeys, Record.values] using this
  · exact (claim_C1_compareRecords_case_analysis (.mk none [("n", .IntValue 1)])
      (.mk none [("n", .IntValue 2)]) 0 emptyOptions).2.2.2.2.2.1

/- Key-map lemmas: keys stay unique, lookups and membership agree, and
every stored element comes from the scanned list with its stringified
key. -/

theorem akeys_cons {α : Type} (k : String) (v : α) (m : List (String × α)) :
    akeys ((k, v) :: m) = k :: akeys m := rfl

theorem mem_akeys_ainsert {α : Type} {m : List (String × α)} {k c : String} {v : α} :
    c ∈ akeys (ainsert m k v) ↔ c ∈ akeys m ∨ c = k := by
  induction m with
  | nil => simp [ainsert, akeys]
  | cons hd tl ih =>
    obtain ⟨k', v'⟩ := hd
    by_cases hk : (k' == k) = true
    · have hkk : k' = k := eq_of_beq hk
      rw [show ainsert ((k', v') :: tl) k v = (k, v) :: tl from by simp [ainsert, hk]]
      rw [akeys_cons, akeys_cons]
      simp only [List.mem_cons, hkk]
      tauto
    · rw [Bool.not_eq_true] at hk
      rw [show ainsert ((k', v') :: tl) k v = (k', v') :: ainsert tl k v from by
        simp [ainsert, hk]]
      rw [akeys_cons, akeys_cons]
      simp only [List.mem_cons, ih]
      tauto

theorem nodup_akeys_ainsert {α : Type} {m : List (String × α)} {k : String} {v : α}
    (h : (akeys m).Nodup) : (akeys (ainsert m k v)).Nodup := by
  induction m with
  | nil => simp [ainsert, akeys]
  | cons hd tl ih =>
    obtain ⟨k', v'⟩ := hd
    rw [akeys_cons, List.nodup_cons] at h
    obtain ⟨hk', htl⟩ := h
    by_cases hk : (k' == k) = true
    · have hkk : k' = k := eq_of_beq hk
      rw [show ainsert ((k', v') :: tl) k v = (k, v) :: tl from by simp [ainsert, hk]]
      rw [akeys_cons, List.nodup_cons]
      rw [← hkk]
      exact ⟨hk', htl⟩
    · rw [Bool.not_eq_true] at hk
      rw [show ainsert ((k', v') :: tl) k v = (k', v') :: ainsert tl k v from by
        simp [ainsert, hk]]
      rw [akeys_cons, List.nodup_cons]
      refine ⟨fun hmem => ?_, ih htl⟩
      rcases mem_akeys_ainsert.mp hmem with h1 | h2
      · exact hk' h1
      · subst h2; simp at hk

theorem nodup_akeys_buildMapLoop {keyColumn : String} :
    ∀ {es : List Value} {acc : List (String × Value)},
      (akeys acc).Nodup → (akeys (buildMapLoop acc es keyColumn)).Nodup := by
  intro es
  induction es with
  | nil => intro acc h; simpa [buildMapLoop] using h
  | cons e rest ih =>
    intro acc h
    simp only [buildMapLoop]
    match e with
    | .RecordValue (some r) =>
      match halo : alookup r.values keyColumn with
      | none => simp only [halo]; exact ih h
      | some keyVal => simp only [halo]; exact ih (nodup_akeys_ainsert h)
    | .RecordValue none => exact ih h
    | .StringValue _ => exact ih h
    | .IntValue _ => exact ih h
    | .FloatValue _ => exact ih h
    | .DateValue _ => exact ih h
    | .BoolValue _ => exact ih h
    | .NullValue _ => exact ih h
    | .ArrayValue _ _ => exact ih h
    | .UnknownValue _ _ _ => exact ih h

theorem nodup_akeys_buildArrayKeyMap (es : List Value) (k : String) :
    (akeys (buildArrayKeyMap es k)).Nodup :=
  nodup_akeys_buildMapLoop (by simp [akeys])

theorem alookup_some_mem {α : Type} {m : List (String × α)} {c : String} {v : α}
    (h : alookup m c = some v) : (c, v) ∈ m := by
  induction m with
  | nil => simp [alookup] at h
  | cons hd tl ih =>
    obtain ⟨k', v'⟩ := hd
    by_cases hk : (k' == c) = true
    · have hkc : k' = c := eq_of_beq hk
      subst hkc
      simp only [alookup, beq_self_eq_true, if_pos, Option.some_inj] at h
      subst h
      exact List.mem_cons_self _ _
    · simp only [alookup, hk, if_false] at h
      exact List.mem_cons_of_mem _ (ih h)

theorem mem_alookup_of_nodup {α : Type} {m : List (String × α)} {c : String} {v : α}
    (hn : (akeys m).Nodup) (h : (c, v) ∈ m) : alookup m c = some v := by
  induction m with
  | nil => simp at h
  | cons hd tl ih =>
    obtain ⟨k', v'⟩ := hd
    simp only [akeys, List.map_cons, List.nodup_cons] at hn
    obtain ⟨hk', htl⟩ := hn
    rcases List.mem_cons.mp h with h1 | h2
    · obtain ⟨rfl, rfl⟩ := Prod.mk.injEq .. ▸ h1
      simp [alookup]
    · have hne : (k' == c) = false := by
        refine beq_eq_false_iff_ne.mpr fun hkc => ?_
        subst hkc
        exact hk' (by simpa [akeys] using List.mem_map_of_mem Prod.fst h2)
      simp only [alookup, hne, if_false]
      exact ih htl h2

/-- An element that enters the key map: a RecordValue with a non-nil
record whose key column is present (explicit nulls included — only an
absent key value is skipped), keyed by the stringified key value. -/
def qualifiesWithKey (e : Value) (keyColumn key : String) : Prop :=
  ∃ r kv, e = .RecordValue (some r) ∧ alookup r.values keyColumn = some kv
    ∧ valueToString kv = key

theorem mem_buildMapLoop_spec {p : String × Value} {keyColumn : String} :
    ∀ {es : List Value} {acc : List (String × Value)},
      p ∈ buildMapLoop acc es keyColumn →
        p ∈ acc ∨ (p.2 ∈ es ∧ qualifiesWithKey p.2 keyColumn p.1) := by
  intro es
  induction es with
  | nil => intro acc h; simp only [buildMapLoop] at h; exact Or.inl h
  | cons e rest ih =>
    intro acc h
    simp only [buildMapLoop] at h
    rcases ih h with hacc | ⟨hmem, hq⟩
    · revert hacc
      match e with
      | .RecordValue (some r) =>
        match halo : alookup r.values keyColumn with
        | none => intro hacc; simp only [halo] at hacc; exact Or.inl hacc
        | some kv =>
          intro hacc
          simp only [halo] at hacc
          rcases mem_ainsert hacc with h1 | h2
          · exact Or.inl h1
          · right
            rw [h2]
            exact ⟨List.mem_cons_self _ _, ⟨r, kv, rfl, halo, rfl⟩⟩
      | .RecordValue none => intro hacc; exact Or.inl hacc
      | .StringValue _ => intro hacc; exact Or.inl hacc
      | .IntValue _ => intro hacc; exact Or.inl hacc
      | .FloatValue _ => intro hacc; exact Or.inl hacc
      | .DateValue _ => intro hacc; exact Or.inl hacc
      | .BoolValue _ => intro hacc; exact Or.inl hacc
      | .NullValue _ => intro hacc; exact Or.inl hacc
      | .ArrayValue _ _ => intro hacc; exact Or.inl hacc
      | .UnknownValue _ _ _ => intro hacc; exact Or.inl hacc
    · exact Or.inr ⟨List.mem_cons_of_mem _ hmem, hq⟩

theorem buildArrayKeyMap_lookup_spec {es : List Value} {k key : String} {v : Value}
    (h : alookup (buildArrayKeyMap es k) key = some v) :
    v ∈ es ∧ qualifiesWithKey v k key := by
  have hm := alookup_some_mem h
  rcases mem_buildMapLoop_spec hm with h1 | h2
  · simp at h1
  · exact h2

theorem mem_akeys_buildMapLoop_mono {c k : String} :
    ∀ {es : List Value} {acc : List (String × Value)},
      c ∈ akeys acc → c ∈ akeys (buildMapLoop acc es k) := by
  intro es
  induction es with
  | nil => intro acc h; simpa [buildMapLoop] using h
  | cons e rest ih =>
    intro acc h
    simp only [buildMapLoop]
    match e with
    | .RecordValue (some r) =>
      match halo : alookup r.values k with
      | none => simp only [halo]; exact ih h
      | some kv =>
        simp only [halo]
        exact ih (mem_akeys_ainsert.mpr (Or.inl h))
    | .RecordValue none => exact ih h
    | .StringValue _ => exact ih h
    | .IntValue _ => exact ih h
    | .FloatValue _ => exact ih h
    | .DateValue _ => exact ih h
    | .BoolValue _ => exact ih h
    | .NullValue _ => exact ih h
    | .ArrayValue _ _ => exact ih h
    | .UnknownValue _ _ _ => exact ih h

theorem mem_akeys_buildMapLoop_of_qualifies {k key : String} :
    ∀ {es : List Value} {acc : List (String × Value)} {e : Value},
      e ∈ es → qualifiesWithKey e k key →
      key ∈ akeys (buildMapLoop acc es k) := by
  intro es
  induction es with
  | nil => intro acc e h; simp at h
  | cons e0 rest ih =>
    intro acc e hmem hq
    simp only [buildMapLoop]
    rcases List.mem_cons.mp hmem with rfl | htl
    · obtain ⟨r, kv, rfl, halo, hks⟩ := hq
      simp only [halo]
      exact mem_akeys_buildMapLoop_mono
        (mem_akeys_ainsert.mpr (Or.inr hks.symm))
    · match e0 with
      | .RecordValue (some r) =>
        match halo : alookup r.values k with
        | none => simp only [halo]; exact ih htl hq
        | some kv => simp only [halo]; exact ih htl hq
      | .RecordValue none => exact ih htl hq
      | .StringValue _ => exact ih htl hq
      | .IntValue _ => exact ih htl hq
      | .FloatValue _ => exact ih htl hq
      | .DateValue _ => exact ih htl hq
      | .BoolValue _ => exact ih htl hq
      | .NullValue _ => exact ih htl hq
      | .ArrayValue _ _ => exact ih htl hq
      | .UnknownValue _ _ _ => exact ih htl hq

theorem buildArrayKeyMap_lookup_isSome_iff (es : List Value) (k key : String) :
    (∃ v, alookup (buildArrayKeyMap es k) key = some v)
      ↔ ∃ e ∈ es, qualifiesWithKey e k key := by
  constructor
  · rintro ⟨v, hv⟩
    obtain ⟨hmem, hq⟩ := buildArrayKeyMap_lookup_spec hv
    exact ⟨v, hmem, hq⟩
  · rintro ⟨e, he, hq⟩
    have hkey : key ∈ akeys (buildArrayKeyMap es k) :=
      mem_akeys_buildMapLoop_of_qualifies he hq
    cases hx : alookup (buildArrayKeyMap es k) key with
    | none => exact absurd hkey (alookup_none_iff_not_mem_keys.mp hx)
    | some v => exact ⟨v, rfl⟩

theorem valueListsEqual_iff (p : String) (o : CompareOptions) :
    ∀ (aEls bEls : List Value), aEls.length = bEls.length →
      (valueListsEqual aEls bEls p o = true ↔
        ∀ i (h1 : i < aEls.length) (h2 : i < bEls.length),
          valuesEqualWithOptions aEls[i] bEls[i] p o = true) := by
  intro aEls
  induction aEls with
  | nil =>
    intro bEls hlen
    unfold valueListsEqual
    simp
  | cons x xs ih =>
    intro bEls hlen
    cases bEls with
    | nil => simp at hlen
    | cons y ys =>
      simp only [List.length_cons, Nat.succ_inj] at hlen
      unfold valueListsEqual
      rw [Bool.and_eq_true]
      constructor
      · rintro ⟨hxy, htail⟩ i h1 h2
        cases i with
        | zero => simpa using hxy
        | succ j =>
          have := (ih ys hlen).mp htail j (by simpa using h1) (by simpa using h2)
          simpa using this
      · intro hall
        constructor
        · simpa using hall 0 (by simp) (by simp)
        · refine (ih ys hlen).mpr ?_
          intro j hj1 hj2
          have := hall (j + 1) (by simpa using hj1) (by simpa using hj2)
          simpa using this

theorem arraysEqualByKey_iff (aEls bEls : List Value) (k p : String) (o : CompareOptions) :
    arraysEqualByKey aEls bEls k p o = true ↔
      ((buildArrayKeyMap aEls k).length = (buildArrayKeyMap bEls k).length
        ∧ ∀ key ae, alookup (buildArrayKeyMap aEls k) key = some ae →
            ∃ be, alookup (buildArrayKeyMap bEls k) key = some be
              ∧ valuesEqualWithOptions ae be p o = true) := by
  simp only [arraysEqualByKey]
  by_cases hlen : (buildArrayKeyMap aEls k).length = (buildArrayKeyMap bEls k).length
  · rw [if_neg (by simp [hlen])]
    constructor
    · intro hall
      refine ⟨hlen, ?_⟩
      intro key ae hae
      have hmem := alookup_some_mem hae
      have happ := List.all_eq_true.mp hall ⟨(key, ae), hmem⟩ (List.mem_attach _ _)
      revert happ
      cases hb : alookup (buildArrayKeyMap bEls k) key with
      | none => intro happ; simp [hb] at happ
      | some be =>
        intro happ
        refine ⟨be, rfl, ?_⟩
        simpa [hb] using happ
    · rintro ⟨-, hforall⟩
      apply List.all_eq_true.mpr
      rintro ⟨⟨key, ae⟩, hmem⟩ -
      have hae : alookup (buildArrayKeyMap aEls k) key = some ae :=
        mem_alookup_of_nodup (nodup_akeys_buildArrayKeyMap aEls k) hmem
      obtain ⟨be, hbe, heq⟩ := hforall key ae hae
      simp [hbe, heq]
  · rw [if_pos (by simpa using hlen)]
    simp [hlen]

theorem arraysEqual_dispatch (aEls bEls : List Value) (p : String) (o : CompareOptions) :
    (o.getArrayKey p = "" →
      arraysEqual aEls bEls p o
        = (if aEls.length != bEls.length then false
           else valueListsEqual aEls bEls p o))
    ∧ (∀ k, o.getArrayKey p = k → k ≠ "" →
      arraysEqual aEls bEls p o = arraysEqualByKey aEls bEls k p o) := by
  constructor
  · intro hk
    unfold arraysEqual
    simp [hk]
  · intro k hk hne
    unfold arraysEqual
    rw [hk]
    rw [if_neg (by simpa using hne)]

/-- The key-map scan as the CLAIM words it: elements must hold a
NON-NULL value at the key column; an explicit null is skipped like an
absent one.  Defined only to compare the claim against the code, which
skips solely on `keyVal == nil`. -/
def buildMapLoopClaim : List (String × Value) → List Value → String → List (String × Value)
  | acc, [], _ => acc
  | acc, e :: rest, keyColumn =>
    buildMapLoopClaim
      (match e with
       | .RecordValue (some r) =>
         match alookup r.values keyColumn with
         | none => acc
         | some keyVal =>
           if keyVal.isNull then acc
           else ainsert acc (valueToString keyVal) e
       | _ => acc)
      rest keyColumn

/-- Key map per the claim's words (non-null key values only). -/
def buildArrayKeyMapClaim (elements : List Value) (keyColumn : String) : List (String × Value) :=
  buildMapLoopClaim [] elements keyColumn

/-- Keyed array equality per the claim's words: claim-built maps of
equal size with every left key matching a structurally equal element on
the right. -/
def arraysEqualByKeyClaim (aEls bEls : List Value) (keyColumn fieldPath : String)
    (o : CompareOptions) : Bool :=
  let aMap := buildArrayKeyMapClaim aEls keyColumn
  let bMap := buildArrayKeyMapClaim bEls keyColumn
  if aMap.length != bMap.length then false
  else
    aMap.all fun q =>
      match alookup bMap q.1 with
      | none => false
      | some be => valuesEqualWithOptions q.2 be fieldPath o

/-- C2 counterexample: with key column "k" configured for path "tags",
take the one-element array whose element is a nested record holding an
explicit null at "k", against the empty array.  The element's key value
is null, so per the claim it is skipped and both maps are empty, making
the arrays equal (claim-version returns true); the code only skips
ABSENT key values, keys the element under "", and reports the arrays
unequal. -/
theorem claim_C2_counterexample :
    arraysEqual [.RecordValue (some (.mk none [("k", .NullValue none)]))] []
        "tags" ⟨[("tags", "k")]⟩ = false
    ∧ arraysEqualByKeyClaim [.RecordValue (some (.mk none [("k", .NullValue none)]))] []
        "k" "tags" ⟨[("tags", "k")]⟩ = true
    ∧ buildArrayKeyMap [.RecordValue (some (.mk none [("k", .NullValue none)]))] "k"
        = [("", .RecordValue (some (.mk none [("k", .NullValue none)])))]
    ∧ buildArrayKeyMapClaim [.RecordValue (some (.mk none [("k", .NullValue none)]))] "k"
        = []
    ∧ (Value.NullValue none).isNull = true := by
  refine ⟨?_, ?_, ?_, ?_, rfl⟩
  · unfold arraysEqual
    simp [CompareOptions.getArrayKey, alookup]
    unfold arraysEqualByKey
    simp [buildArrayKeyMap, buildMapLoop, alookup, Record.values, ainsert,
      valueToString, Value.isNull]
  · simp [arraysEqualByKeyClaim, buildArrayKeyMapClaim, buildMapLoopClaim,
      alookup, Record.values, Value.isNull]
  · simp [buildArrayKeyMap, buildMapLoop, alookup, Record.values, ainsert,
      valueToString, Value.isNull]
  · simp [buildArrayKeyMapClaim, buildMapLoopClaim, alookup, Record.values,
      Value.isNull]

/-- C2 amended: without a key the comparison is positional
(order-sensitive, equal lengths plus index-aligned structural
equality); with a key, the maps are built from exactly the non-null
nested-record elements holding a value PRESENT at the key column
(explicit nulls included, stringified — like every non-string,
non-int key value — to the empty string), and the arrays are equal iff
the maps have equal size and every left key maps to a structurally
equal element on the right. -/
theorem claim_C2_amended_array_equality (aEls bEls : List Value) (p : String)
    (o : CompareOptions) :
    (o.getArrayKey p = "" →
      (arraysEqual aEls bEls p o = true ↔
        aEls.length = bEls.length ∧
          ∀ i (h1 : i < aEls.length) (h2 : i < bEls.length),
            valuesEqualWithOptions aEls[i] bEls[i] p o = true))
    ∧ (∀ k, o.getArrayKey p = k → k ≠ "" →
        (arraysEqual aEls bEls p o = true ↔
          ((buildArrayKeyMap aEls k).length = (buildArrayKeyMap bEls k).length
            ∧ ∀ key ae, alookup (buildArrayKeyMap aEls k) key = some ae →
                ∃ be, alookup (buildArrayKeyMap bEls k) key = some be
                  ∧ valuesEqualWithOptions ae be p o = true)))
    ∧ (∀ k key v, alookup (buildArrayKeyMap aEls k) key = some v →
        v ∈ aEls ∧ qualifiesWithKey v k key)
    ∧ (∀ k key, (∃ v, alookup (buildArrayKeyMap aEls k) key = some v)
        ↔ ∃ e ∈ aEls, qualifiesWithKey e k key)
    ∧ (∀ s, valueToString (.StringValue s) = s)
    ∧ (∀ n : Int, valueToString (.IntValue n) = toString n)
    ∧ (∀ v : Value, v.isNull = true → valueToString v = "")
    ∧ (∀ f : GoFloat, valueToString (.FloatValue f) = "") := by
  refine ⟨?_, ?_, ?_, ?_, fun s => rfl, fun n => rfl, ?_, fun f => rfl⟩
  · intro hk
    rw [(arraysEqual_dispatch aEls bEls p o).1 hk]
    by_cases hlen : aEls.length = bEls.length
    · rw [if_neg (by simp [hlen])]
      rw [valueListsEqual_iff p o aEls bEls hlen]
      simp [hlen]
    · rw [if_pos (by simpa using hlen)]
      simp [hlen]
  · intro k hk hne
    rw [(arraysEqual_dispatch aEls bEls p o).2 k hk hne]
    exact arraysEqualByKey_iff aEls bEls k p o
  · intro k key v hv; exact buildArrayKeyMap_lookup_spec hv
  · intro k key; exact buildArrayKeyMap_lookup_isSome_iff aEls k key
  · intro v hv; simp [valueToString, hv]

/-- Witness for C2 at concrete arrays: two identical one-element int
arrays compare equal positionally (no key configured). -/
theorem claim_C2_witness :
    arraysEqual [.IntValue 1] [.IntValue 1] "stock" emptyOptions = true :=
  ((claim_C2_amended_array_equality [.IntValue 1] [.IntValue 1] "stock"
      emptyOptions).1 rfl).mpr
    ⟨rfl, fun i h1 h2 => by
      have hi : i = 0 := by
        simp only [List.length_singleton] at h1
        omega
      subst hi
      simp only [List.getElem_cons_zero]
      unfold valuesEqualWithOptions
      simp [Value.getType, optTypeEq, schemaTypeEq, NativeTypeInt]⟩

theorem buildMapLoop_all_skipped {k : String} :
    ∀ {es : List Value} {acc : List (String × Value)},
      (∀ e ∈ es, ∀ r : Record, e = .RecordValue (some r) → alookup r.values k = none) →
      buildMapLoop acc es k = acc := by
  intro es
  induction es with
  | nil => intro acc _; simp [buildMapLoop]
  | cons e rest ih =>
    intro acc hskip
    simp only [buildMapLoop]
    have hrest : ∀ e0 ∈ rest, ∀ r : Record, e0 = .RecordValue (some r) →
        alookup r.values k = none :=
      fun e0 h0 => hskip e0 (List.mem_cons_of_mem _ h0)
    match e with
    | .RecordValue (some r) =>
      have hnone : alookup r.values k = none :=
        hskip (.RecordValue (some r)) (List.mem_cons_self _ _) r rfl
      simp only [hnone]
      exact ih hrest
    | .RecordValue none => exact ih hrest
    | .StringValue _ => exact ih hrest
    | .IntValue _ => exact ih hrest
    | .FloatValue _ => exact ih hrest
    | .DateValue _ => exact ih hrest
    | .BoolValue _ => exact ih hrest
    | .NullValue _ => exact ih hrest
    | .ArrayValue _ _ => exact ih hrest
    | .UnknownValue _ _ _ => exact ih hrest

/-- C10 counterexample: key "k" configured for path "tags"; the left
array's only element is a nested record holding an explicit null at
"k" — so no element of either array holds a NON-null value at the key
column, and the claim predicts two empty key maps and an Unchanged
delta — yet the code keys that element under "" (its key map is
non-empty) and reports the field Updated. -/
theorem claim_C10_counterexample :
    (compareFieldValues "tags"
        (some (.ArrayValue (some NativeTypeInt)
          [.RecordValue (some (.mk none [("k", .NullValue none)]))]))
        (some (.ArrayValue (some NativeTypeInt) []))
        "tags" ⟨[("tags", "k")]⟩).changeType = FieldUpdated
    ∧ buildArrayKeyMap [.RecordValue (some (.mk none [("k", .NullValue none)]))] "k"
        = [("", .RecordValue (some (.mk none [("k", .NullValue none)])))]
    ∧ buildArrayKeyMap ([] : List Value) "k" = []
    ∧ alookup (Record.mk none [("k", .NullValue none)]).values "k"
        = some (.NullValue none)
    ∧ (Value.NullValue none).isNull = true := by
  refine ⟨?_, ?_, rfl, rfl, rfl⟩
  · have harr : arraysEqual
        [.RecordValue (some (.mk none [("k", .NullValue none)]))] []
        "tags" ⟨[("tags", "k")]⟩ = false := by
      unfold arraysEqual
      simp [CompareOptions.getArrayKey, alookup]
      unfold arraysEqualByKey
      simp [buildArrayKeyMap, buildMapLoop, alookup, Record.values, ainsert,
        valueToString, Value.isNull]
    have hveq : valuesEqualWithOptions
        (.ArrayValue (some NativeTypeInt)
          [.RecordValue (some (.mk none [("k", .NullValue none)]))])
        (.ArrayValue (some NativeTypeInt) [])
        "tags" ⟨[("tags", "k")]⟩ = false := by
      unfold valuesEqualWithOptions
      simp [Value.getType, optTypeEq, schemaTypeEq, NativeTypeInt, harr]
    simp [compareFieldValues, valueIsNull, Value.isNull, hveq]
  · simp [buildArrayKeyMap, buildMapLoop, alookup, Record.values, ainsert,
      valueToString, Value.isNull]

/-- C10 amended: with a key configured for the field path, two array
values of equal declared element type in which no element is a non-null
nested-record value holding a value PRESENT at the key column produce
two empty key maps, compare as equal, and the field delta is
Unchanged. -/
theorem claim_C10_amended_empty_key_maps (o : CompareOptions) (p k c : String)
    (t : Option SchemaType) (aEls bEls : List Value)
    (hk : o.getArrayKey p = k) (hne : k ≠ "")
    (ha : ∀ e ∈ aEls, ∀ r : Record, e = .RecordValue (some r) → alookup r.values k = none)
    (hb : ∀ e ∈ bEls, ∀ r : Record, e = .RecordValue (some r) → alookup r.values k = none) :
    buildArrayKeyMap aEls k = []
    ∧ buildArrayKeyMap bEls k = []
    ∧ arraysEqual aEls bEls p o = true
    ∧ (compareFieldValues c (some (.ArrayValue t aEls))
        (some (.ArrayValue t bEls)) p o).changeType = FieldUnchanged := by
  have hma : buildArrayKeyMap aEls k = [] := buildMapLoop_all_skipped ha
  have hmb : buildArrayKeyMap bEls k = [] := buildMapLoop_all_skipped hb
  have harr : arraysEqual aEls bEls p o = true := by
    rw [(arraysEqual_dispatch aEls bEls p o).2 k hk hne]
    simp only [arraysEqualByKey, hma, hmb]
    simp [hma]
  refine ⟨hma, hmb, harr, ?_⟩
  have hveq : valuesEqualWithOptions (.ArrayValue t aEls) (.ArrayValue t bEls) p o = true := by
    unfold valuesEqualWithOptions
    simp only [Value.getType, optTypeEq_refl, Bool.not_true, Bool.false_eq_true,
      if_false]
    exact harr
  simp [compareFieldValues, valueIsNull, Value.isNull, hveq]

/-- Witness for C10 at concrete scalar arrays of different lengths and
contents, with a key configured: both key maps are empty and the field
delta is Unchanged. -/
theorem claim_C10_witness :
    buildArrayKeyMap [Value.IntValue 1] "k" = []
    ∧ arraysEqual [.IntValue 1] [.IntValue 2, .BoolValue true] "tags"
        ⟨[("tags", "k")]⟩ = true
    ∧ (compareFieldValues "tags"
        (some (.ArrayValue (some NativeTypeInt) [.IntValue 1]))
        (some (.ArrayValue (some NativeTypeInt) [.IntValue 2, .BoolValue true]))
        "tags" ⟨[("tags", "k")]⟩).changeType = FieldUnchanged := by
  have h := claim_C10_amended_empty_key_maps ⟨[("tags", "k")]⟩ "tags" "k" "tags"
    (some NativeTypeInt) [.IntValue 1] [.IntValue 2, .BoolValue true]
    rfl (by decide)
    (by rintro e he r rfl; simp at he)
    (by rintro e he r rfl; simp at he)
  exact ⟨h.1, h.2.2.1, h.2.2.2⟩

end Pipeforge
